import Mathlib

/-!
Shallow embedding of `src/strategy_analysis.py`: a moving-average-crossover
backtester producing an equity curve, a trade log and risk/return metrics.

Modelling conventions:
* Python floats are modelled as rationals (`ℚ`); the two square roots in the
  Sharpe computation and the real exponent in the annualized return live in `ℝ`.
* `datetime` values are integers counting seconds on an absolute axis; the only
  operation the source performs on them is subtraction followed by the
  `timedelta.days` attribute, modelled by flooring division by 86400.
* Python exceptions (`IndexError` on `rows[0]` / `eq_curve[0]`,
  `ZeroDivisionError` in the Sharpe and annualized-return formulas, `TypeError`
  on `None - datetime`) are modelled by `Option.none`.
* The module-level configuration `SHORT_WINDOW` / `LONG_WINDOW` (overridable
  from `argv` in `main`) is passed to the engine as explicit parameters
  `SW` / `LW`.
-/

namespace StrategyAnalysis

/-- Timestamps: seconds on an absolute axis (a `datetime`). -/
abbrev Time := Int

/-- Whole days of the `timedelta` between two datetimes, i.e. `(b - a).days`;
Python's `timedelta` normalisation floors, hence `Int.fdiv`. -/
def timedeltaDays (a b : Time) : Int := Int.fdiv (b - a) 86400

/-- One input row. The CSV rows also carry Open/High/Low/Volume fields, but
`run_strategy`, `buy_and_hold` and the metrics functions only ever read
`Datetime` and `Close`, so only those two are modelled. -/
structure Bar where
  datetime : Time
  close : ℚ
deriving DecidableEq

/-- A trade record (`class Trade`): `position` is `1` for long, `-1` for short;
`exit_time` / `exit_price` are `None` until the trade is closed. -/
structure Trade where
  time : Time
  price : ℚ
  position : Int
  exit_time : Option Time
  exit_price : Option ℚ
deriving DecidableEq

/-- `Trade.close(time, price)`: set the exit fields. -/
def Trade.close (t : Trade) (time : Time) (price : ℚ) : Trade :=
  { t with exit_time := some time, exit_price := some price }

/-- `Trade.pnl()`: `0.0` while the trade is open; on a long trade
`exit_price / price - 1`, otherwise `price / exit_price - 1`. -/
def Trade.pnl (t : Trade) : ℚ :=
  match t.exit_price with
  | none => 0
  | some ep => if t.position = 1 then ep / t.price - 1 else t.price / ep - 1

/-- `sum(l[-k:]) / k` for `k ≥ 1`: the trailing moving average over the last
`k` entries (Python's negative slice clamps to the whole list when fewer than
`k` entries exist, exactly as `List.drop` with truncated subtraction does; the
divisor stays `k`). -/
def maLast (l : List ℚ) (k : Nat) : ℚ := (l.drop (l.length - k)).sum / k

/-- The mutable loop state of `run_strategy`. -/
structure State where
  closes : List ℚ
  position : Int
  equity : ℚ
  last_close : ℚ
  trades : List Trade
  eq_curve : List (Time × ℚ)
deriving DecidableEq

/-- `trades[-1].close(time, price)`: close the last trade of the log in place. -/
def closeLast (l : List Trade) (time : Time) (price : ℚ) : List Trade :=
  match l.getLast? with
  | none => l
  | some t => l.dropLast ++ [t.close time price]

/-- State before the first loop iteration of `run_strategy`:
`last_close = rows[0]['Close']`. -/
def initState (c0 : ℚ) : State :=
  { closes := [], position := 0, equity := 1, last_close := c0,
    trades := [], eq_curve := [] }

/-- The crossover block of the `run_strategy` loop (lines 56-80 of the
source): once the recorded close history strictly exceeds `LW` entries, the
four trailing averages are computed and the position state machine fires,
returning the updated `(position, trades)` pair (unchanged when no signal
fires or the history is still too short). -/
def transition (SW LW : Nat) (s : State) (row : Bar) : Int × List Trade :=
  let close := row.close
  let closes := s.closes ++ [close]
  if closes.length > LW then
    let short_ma := maLast closes SW
    let long_ma := maLast closes LW
    let prev_short_ma := maLast closes.dropLast SW
    let prev_long_ma := maLast closes.dropLast LW
    if s.position = 0 then
      if prev_short_ma ≤ prev_long_ma ∧ short_ma > long_ma then
        (1, s.trades ++ [Trade.mk row.datetime close 1 none none])
      else if prev_short_ma ≥ prev_long_ma ∧ short_ma < long_ma then
        (-1, s.trades ++ [Trade.mk row.datetime close (-1) none none])
      else (s.position, s.trades)
    else if s.position = 1 then
      if prev_short_ma ≥ prev_long_ma ∧ short_ma < long_ma then
        (-1, closeLast s.trades row.datetime close ++
               [Trade.mk row.datetime close (-1) none none])
      else (s.position, s.trades)
    else if s.position = -1 then
      if prev_short_ma ≤ prev_long_ma ∧ short_ma > long_ma then
        (1, closeLast s.trades row.datetime close ++
               [Trade.mk row.datetime close 1 none none])
      else (s.position, s.trades)
    else (s.position, s.trades)
  else (s.position, s.trades)

/-- One iteration of the `for row in rows` loop of `run_strategy`.  Note the
order faithfully follows the source: the crossover `transition` (lines 56-80)
updates `position` and `trades` first, and only then is the equity update
(line 82) computed — with the already-transitioned position `pt.1`. -/
def step (SW LW : Nat) (s : State) (row : Bar) : State :=
  let close := row.close
  let pt := transition SW LW s row
  let ret : ℚ := (pt.1 : ℚ) * (close / s.last_close - 1)
  let equity := s.equity * (1 + ret)
  { closes := s.closes ++ [close], position := pt.1, equity := equity,
    last_close := close, trades := pt.2,
    eq_curve := s.eq_curve ++ [(row.datetime, equity)] }

/-- Lines 87-88 of the source: after the loop, if the log is non-empty and its
last trade has no exit price, force-close it at the given time and price. -/
def finalizeTrades (l : List Trade) (time : Time) (price : ℚ) : List Trade :=
  match l.getLast? with
  | some t => if t.exit_price = none then closeLast l time price else l
  | none => l

/-- `run_strategy(rows)`: the equity curve and the trade log; `none` models the
`IndexError` raised by `rows[0]` on empty input.  After the loop, a still-open
last trade is force-closed at the last row's datetime and close. -/
def run_strategy (SW LW : Nat) (rows : List Bar) :
    Option (List (Time × ℚ) × List Trade) :=
  match rows with
  | [] => none
  | r0 :: rest =>
    let s := (r0 :: rest).foldl (step SW LW) (initState r0.close)
    let lastRow := (r0 :: rest).getLast (List.cons_ne_nil r0 rest)
    some (s.eq_curve, finalizeTrades s.trades lastRow.datetime lastRow.close)

/-- One iteration of the `buy_and_hold` loop: the accumulator carries
`(equity, last, eq_curve)`. -/
def bhStep (acc : ℚ × ℚ × List (Time × ℚ)) (row : Bar) : ℚ × ℚ × List (Time × ℚ) :=
  let equity := acc.1 * (row.close / acc.2.1)
  (equity, row.close, acc.2.2 ++ [(row.datetime, equity)])

/-- `buy_and_hold(rows)`: always-long equity curve; `none` models the
`IndexError` of `rows[0]` on empty input. -/
def buy_and_hold (rows : List Bar) : Option (List (Time × ℚ)) :=
  match rows with
  | [] => none
  | r0 :: rest => some (((r0 :: rest).foldl bhStep (1, r0.close, [])).2.2)

/-- The per-step simple returns of an equity curve:
`r_i = eq_curve[i][1] / eq_curve[i-1][1] - 1` for `i = 1 .. N-1`
(lines 111-114 of the source). -/
def stepReturns (eq_curve : List (Time × ℚ)) : List ℚ :=
  (eq_curve.zip eq_curve.tail).map (fun p => p.2.2 / p.1.2 - 1)

/-- `avg = sum(rets) / len(rets)`. -/
def retsMean (rets : List ℚ) : ℚ := rets.sum / rets.length

/-- The sample variance with `N-1` denominator appearing under the square root
on line 118: `sum((x-avg)**2 for x in rets) / (len(rets)-1)`. -/
def retsVar (rets : List ℚ) : ℚ :=
  (rets.map (fun x => (x - retsMean rets) ^ 2)).sum / ((rets.length : ℚ) - 1)

/-- The Sharpe-style ratio of `calc_metrics` (lines 110-121).  When `rets` is
empty the source sets `sharpe = 0`; when `rets` has exactly one element the
division by `len(rets)-1 = 0` inside the standard-deviation expression raises
`ZeroDivisionError`, modelled by `none`; otherwise
`sharpe = (avg/std) * sqrt(6552)` unless `std == 0`, in which case `0`. -/
noncomputable def sharpeOfCurve (eq_curve : List (Time × ℚ)) : Option ℝ :=
  let rets := stepReturns eq_curve
  if rets.isEmpty then some 0
  else if rets.length = 1 then none
  else
    let std : ℝ := Real.sqrt (retsVar rets : ℝ)
    if std = 0 then some 0
    else some ((retsMean rets : ℝ) / std * Real.sqrt 6552)

/-- The annualized return of `calc_metrics` (lines 105-109):
`(end_val/start_val) ** (1/years) - 1` with `years = days/365.0`; the source
raises `ZeroDivisionError` at `1/years` when the whole-day span is zero,
modelled by `none`; empty input raises `IndexError` at `eq_curve[0]`. -/
noncomputable def annualized_return : List (Time × ℚ) → Option ℝ
  | [] => none
  | p :: rest =>
    let lastPt := (p :: rest).getLast (List.cons_ne_nil p rest)
    let days : Int := timedeltaDays p.1 lastPt.1
    if days = 0 then none
    else
      let years : ℝ := (days : ℝ) / 365
      some (Real.rpow ((lastPt.2 / p.2 : ℚ) : ℝ) (1 / years) - 1)

/-- The max-drawdown loop of `calc_metrics` (lines 122-130), carrying the
running peak `max_equity` and the running maximum drawdown `max_dd`. -/
def ddLoop : List ℚ → ℚ → ℚ → ℚ
  | [], _, max_dd => max_dd
  | eq :: rest, max_equity, max_dd =>
    let peak := if eq > max_equity then eq else max_equity
    let dd := (peak - eq) / peak
    ddLoop rest peak (if dd > max_dd then dd else max_dd)

/-- `max_drawdown` of `calc_metrics`: the loop starts with
`max_equity = eq_curve[0][1]` and `max_dd = 0`; empty input raises
`IndexError`, modelled by `none`. -/
def max_drawdown : List (Time × ℚ) → Option ℚ
  | [] => none
  | p :: rest => some (ddLoop ((p :: rest).map Prod.snd) p.2 0)

/-- `trade_frequency(trades)` (lines 148-152): `0.0` on an empty log; otherwise
`months = (trades[-1].exit_time - trades[0].time).days / 30.0` and the result
is `len(trades) / months`, or the raw `len(trades)` when `months` is zero.  An
open last trade makes the source raise `TypeError` on `None - datetime`,
modelled by `none`. -/
def trade_frequency (trades : List Trade) : Option ℚ :=
  match trades with
  | [] => some 0
  | t0 :: rest =>
    match ((t0 :: rest).getLast (List.cons_ne_nil t0 rest)).exit_time with
    | none => none
    | some et =>
      let months : ℚ := (timedeltaDays t0.time et : ℚ) / 30
      if months = 0 then some ((t0 :: rest).length : ℚ)
      else some (((t0 :: rest).length : ℚ) / months)

/-- Modelled from the spec (claim C1), for refinement comparison with `step`:
identical to `step` except that the equity update uses the position held
*entering* the bar (`s.position`), i.e. the transition decided from this bar's
own crossover signals takes effect only from the next bar on. -/
def specStep (SW LW : Nat) (s : State) (row : Bar) : State :=
  let close := row.close
  let pt := transition SW LW s row
  let ret : ℚ := (s.position : ℚ) * (close / s.last_close - 1)
  let equity := s.equity * (1 + ret)
  { closes := s.closes ++ [close], position := pt.1, equity := equity,
    last_close := close, trades := pt.2,
    eq_curve := s.eq_curve ++ [(row.datetime, equity)] }

/-- Modelled from the spec (claim C1): `run_strategy` built on `specStep`. -/
def spec_run_strategy (SW LW : Nat) (rows : List Bar) :
    Option (List (Time × ℚ) × List Trade) :=
  match rows with
  | [] => none
  | r0 :: rest =>
    let s := (r0 :: rest).foldl (specStep SW LW) (initState r0.close)
    let lastRow := (r0 :: rest).getLast (List.cons_ne_nil r0 rest)
    some (s.eq_curve, finalizeTrades s.trades lastRow.datetime lastRow.close)

/-! ### Structural lemmas about one loop iteration -/

/-- The per-bar return actually applied on line 82: it multiplies the price
relative by the position `after` the crossover transition of the same bar. -/
def stepRet (SW LW : Nat) (s : State) (row : Bar) : ℚ :=
  ((step SW LW s row).position : ℚ) * (row.close / s.last_close - 1)

lemma step_position (SW LW : Nat) (s : State) (row : Bar) :
    (step SW LW s row).position = (transition SW LW s row).1 := rfl

lemma step_trades (SW LW : Nat) (s : State) (row : Bar) :
    (step SW LW s row).trades = (transition SW LW s row).2 := rfl

lemma step_equity (SW LW : Nat) (s : State) (row : Bar) :
    (step SW LW s row).equity = s.equity * (1 + stepRet SW LW s row) := rfl

lemma step_eq_curve (SW LW : Nat) (s : State) (row : Bar) :
    (step SW LW s row).eq_curve =
      s.eq_curve ++ [(row.datetime, (step SW LW s row).equity)] := rfl

lemma step_closes (SW LW : Nat) (s : State) (row : Bar) :
    (step SW LW s row).closes = s.closes ++ [row.close] := rfl

lemma step_last_close (SW LW : Nat) (s : State) (row : Bar) :
    (step SW LW s row).last_close = row.close := rfl

/-- Case analysis on the crossover block: either nothing changes, or (from
Flat) one open trade is appended, or (from Long/Short, on an opposing signal)
the last trade is closed and one open trade is appended. -/
lemma transition_cases (SW LW : Nat) (s : State) (row : Bar) :
    transition SW LW s row = (s.position, s.trades) ∨
    (s.position = 0 ∧ ∃ p : Int, p ≠ 0 ∧
      transition SW LW s row =
        (p, s.trades ++ [Trade.mk row.datetime row.close p none none])) ∨
    (s.position ≠ 0 ∧ ∃ p : Int, p ≠ 0 ∧
      transition SW LW s row =
        (p, closeLast s.trades row.datetime row.close ++
              [Trade.mk row.datetime row.close p none none])) := by
  simp only [transition]
  split_ifs <;>
    first
      | exact Or.inl rfl
      | exact Or.inr (Or.inl ⟨by assumption, 1, one_ne_zero, rfl⟩)
      | exact Or.inr (Or.inl ⟨by assumption, -1, by decide, rfl⟩)
      | exact Or.inr (Or.inr ⟨by assumption, 1, one_ne_zero, rfl⟩)
      | exact Or.inr (Or.inr ⟨by assumption, -1, by decide, rfl⟩)

/-- When the recorded history (including the current bar) still has at most
`LW` closes, the crossover block leaves position and trades unchanged. -/
lemma transition_short_history (SW LW : Nat) (s : State) (row : Bar)
    (h : s.closes.length + 1 ≤ LW) :
    transition SW LW s row = (s.position, s.trades) := by
  have hc : ¬ ((s.closes ++ [row.close]).length > LW) := by
    simp only [List.length_append, List.length_cons, List.length_nil]
    omega
  simp only [transition]
  rw [if_neg hc]

/-! ### The trade-log invariant (claims C3 and C4) -/

/-- Every trade in the list has its exit fields set (is closed). -/
def allExitSet (l : List Trade) : Prop := ∀ t ∈ l, t.exit_price ≠ none

lemma allExitSet_nil : allExitSet [] := by
  intro t ht
  cases ht

lemma closeLast_allExitSet (l : List Trade) (time : Time) (price : ℚ)
    (h : allExitSet l.dropLast) : allExitSet (closeLast l time price) := by
  unfold closeLast
  cases hl : l.getLast? with
  | none =>
    rw [List.getLast?_eq_none_iff] at hl
    subst hl
    exact allExitSet_nil
  | some t =>
    intro u hu
    rcases List.mem_append.mp hu with h1 | h2
    · exact h u h1
    · rw [List.mem_singleton] at h2
      subst h2
      simp [Trade.close]

/-- The loop invariant behind "at most one open trade": every trade except
possibly the last is closed, and when the position is Flat even the last one
is closed. -/
def TradeInv (s : State) : Prop :=
  allExitSet s.trades.dropLast ∧ (s.position = 0 → allExitSet s.trades)

lemma tradeInv_init (c0 : ℚ) : TradeInv (initState c0) :=
  ⟨allExitSet_nil, fun _ => allExitSet_nil⟩

lemma tradeInv_step (SW LW : Nat) (s : State) (row : Bar) (h : TradeInv s) :
    TradeInv (step SW LW s row) := by
  obtain ⟨hd, hflat⟩ := h
  rcases transition_cases SW LW s row with hc | ⟨h0, p, hp, hc⟩ | ⟨h0, p, hp, hc⟩ <;>
    constructor <;>
    simp only [TradeInv, step_trades, step_position, hc]
  · exact hd
  · exact hflat
  · rw [List.dropLast_concat]
    exact hflat h0
  · intro hpos
    exact absurd hpos hp
  · rw [List.dropLast_concat]
    exact closeLast_allExitSet s.trades _ _ hd
  · intro hpos
    exact absurd hpos hp

lemma tradeInv_foldl (SW LW : Nat) :
    ∀ (l : List Bar) (s : State), TradeInv s → TradeInv (l.foldl (step SW LW) s)
  | [], _, h => h
  | r :: rs, s, h =>
    tradeInv_foldl SW LW rs (step SW LW s r) (tradeInv_step SW LW s r h)

/-- If every trade but the last is closed, at most one trade of the log is
open. -/
lemma open_count_le_one (l : List Trade) (h : allExitSet l.dropLast) :
    (l.filter (fun t => t.exit_price.isNone)).length ≤ 1 := by
  rcases List.eq_nil_or_concat l with rfl | ⟨l', a, rfl⟩
  · simp
  · rw [List.concat_eq_append] at h ⊢
    rw [List.dropLast_concat] at h
    rw [List.filter_append]
    have h1 : l'.filter (fun t => t.exit_price.isNone) = [] := by
      rw [List.filter_eq_nil_iff]
      intro t ht hopen
      exact h t ht (Option.isNone_iff_eq_none.mp hopen)
    rw [h1]
    simpa using List.length_filter_le _ [a]

/-- While fewer than `LW + 1` closes have been seen, the loop keeps the
position Flat, the equity at 1, the trade log empty, and records only 1s on
the curve. -/
lemma flat_foldl (SW LW : Nat) :
    ∀ (l : List Bar) (s : State), s.closes.length + l.length ≤ LW →
      s.position = 0 → s.equity = 1 → s.trades = [] →
      (∀ p ∈ s.eq_curve, p.2 = 1) →
      (l.foldl (step SW LW) s).position = 0 ∧
      (l.foldl (step SW LW) s).equity = 1 ∧
      (l.foldl (step SW LW) s).trades = [] ∧
      (∀ p ∈ (l.foldl (step SW LW) s).eq_curve, p.2 = 1) := by
  intro l
  induction l with
  | nil =>
    intro s _ hpos heq htr hcurve
    exact ⟨hpos, heq, htr, hcurve⟩
  | cons r rs ih =>
    intro s hlen hpos heq htr hcurve
    have hc : s.closes.length + 1 ≤ LW := by
      simp only [List.length_cons] at hlen
      omega
    have htrans := transition_short_history SW LW s r hc
    have hstep_pos : (step SW LW s r).position = 0 := by
      rw [step_position, htrans]
      exact hpos
    have hstep_eq : (step SW LW s r).equity = 1 := by
      rw [step_equity, stepRet, step_position, htrans]
      simp only [hpos, heq]
      norm_num
    have hstep_tr : (step SW LW s r).trades = [] := by
      rw [step_trades, htrans]
      exact htr
    have hstep_curve : ∀ p ∈ (step SW LW s r).eq_curve, p.2 = 1 := by
      rw [step_eq_curve]
      intro p hp
      rcases List.mem_append.mp hp with h1 | h2
      · exact hcurve p h1
      · rw [List.mem_singleton] at h2
        rw [h2]
        exact hstep_eq
    have hstep_len : (step SW LW s r).closes.length + rs.length ≤ LW := by
      rw [step_closes]
      simp only [List.length_append, List.length_cons, List.length_nil]
      simp only [List.length_cons] at hlen
      omega
    simpa only [List.foldl_cons] using
      ih (step SW LW s r) hstep_len hstep_pos hstep_eq hstep_tr hstep_curve

/-- Claim C2: with fewer bars than `LONG_WINDOW + 1`, `run_strategy` produces
no trades and an equity curve that is 1.0 at every point — crossover
evaluation needs a close history strictly exceeding `LW` entries.  The last
conjunct shows evaluation does begin at the `LW + 1`-th bar: with `LW = 2`, a
3-bar input already generates a trade. -/
theorem run_strategy_flat_below_long_window (SW LW : Nat) (rows : List Bar)
    (curve : List (Time × ℚ)) (trades : List Trade)
    (hlen : rows.length < LW + 1)
    (h : run_strategy SW LW rows = some (curve, trades)) :
    (trades = [] ∧ ∀ p ∈ curve, p.2 = 1) ∧
    ∃ pr, run_strategy 1 2 [Bar.mk 0 10, Bar.mk 1 10, Bar.mk 2 11] = some pr ∧
      pr.2 ≠ [] := by
  refine ⟨?_, ⟨([(0, 1), (1, 1), (2, 11/10)],
      [Trade.mk 2 11 1 (some 2) (some 11)]), ?_, by simp⟩⟩
  · match rows with
    | [] => exact absurd h (by simp [run_strategy])
    | r0 :: rest =>
      have hflat := flat_foldl SW LW (r0 :: rest) (initState r0.close)
        (by simpa [initState] using Nat.lt_succ_iff.mp hlen)
        rfl rfl rfl (by simp [initState])
      simp only [run_strategy, Option.some.injEq, Prod.mk.injEq] at h
      obtain ⟨hcurve, htrades⟩ := h
      constructor
      · rw [← htrades, finalizeTrades, hflat.2.2.1]
        rfl
      · intro p hp
        rw [← hcurve] at hp
        exact hflat.2.2.2 p hp
  · norm_num [run_strategy, step, transition, initState, maLast, closeLast,
      finalizeTrades, Trade.close]

/-- Witness for C2 at a concrete input: two bars with `LW = 2`. -/
theorem run_strategy_flat_below_long_window_witness :
    ((([] : List Trade) = [] ∧ ∀ p ∈ [((0 : Time), (1 : ℚ)), (1, 1)], p.2 = 1) ∧
      ∃ pr, run_strategy 1 2 [Bar.mk 0 10, Bar.mk 1 10, Bar.mk 2 11] = some pr ∧
        pr.2 ≠ []) :=
  run_strategy_flat_below_long_window 1 2 [Bar.mk 0 10, Bar.mk 1 12]
    [((0 : Time), (1 : ℚ)), (1, 1)] [] (by norm_num)
    (by norm_num [run_strategy, step, transition, initState, maLast,
      finalizeTrades])

/-- Claim C3: after any prefix of the bar sequence has been processed, at most
one trade of the log is open, and any open trade is the most recently
appended one (every earlier trade is closed) — so a new trade is only ever
appended when the previous one is closed or none exists yet. -/
theorem trades_at_most_one_open (SW LW : Nat) (c0 : ℚ) (bars : List Bar) (n : Nat) :
    ((((bars.take n).foldl (step SW LW) (initState c0)).trades.filter
        (fun t => t.exit_price.isNone)).length ≤ 1) ∧
    allExitSet (((bars.take n).foldl (step SW LW) (initState c0)).trades.dropLast) := by
  have h := tradeInv_foldl SW LW (bars.take n) (initState c0) (tradeInv_init c0)
  exact ⟨open_count_le_one _ h.1, h.1⟩

/-- Claim C4: on a non-empty input every trade in the returned log is closed,
and when the loop ends with its last trade still open, that trade is closed at
the last bar's datetime and closing price. -/
theorem run_strategy_closes_all_trades (SW LW : Nat) (r0 : Bar) (rest : List Bar)
    (curve : List (Time × ℚ)) (trades : List Trade)
    (h : run_strategy SW LW (r0 :: rest) = some (curve, trades)) :
    allExitSet trades ∧
    (∀ t, ((r0 :: rest).foldl (step SW LW) (initState r0.close)).trades.getLast? =
        some t → t.exit_price = none →
      trades.getLast? = some (t.close
        ((r0 :: rest).getLast (List.cons_ne_nil r0 rest)).datetime
        ((r0 :: rest).getLast (List.cons_ne_nil r0 rest)).close)) := by
  have hinv := tradeInv_foldl SW LW (r0 :: rest) (initState r0.close)
    (tradeInv_init r0.close)
  simp only [run_strategy, Option.some.injEq, Prod.mk.injEq] at h
  obtain ⟨-, htrades⟩ := h
  rw [← htrades]
  cases hl : ((r0 :: rest).foldl (step SW LW) (initState r0.close)).trades.getLast? with
  | none =>
    have hnil := List.getLast?_eq_none_iff.mp hl
    constructor
    · simp only [finalizeTrades, hl, hnil]
      exact allExitSet_nil
    · intro t ht
      exact Option.noConfusion ht
  | some t0 =>
    have hdecomp := List.dropLast_append_getLast? t0 hl
    by_cases hexit : t0.exit_price = none
    · constructor
      · simp only [finalizeTrades, hl, if_pos hexit]
        exact closeLast_allExitSet _ _ _ hinv.1
      · intro t ht hopen
        have ht0 : t0 = t := Option.some.inj ht
        subst ht0
        simp only [finalizeTrades, hl, if_pos hexit, closeLast]
        exact List.getLast?_concat _
    · constructor
      · simp only [finalizeTrades, hl, if_neg hexit]
        intro u hu
        rw [← hdecomp] at hu
        rcases List.mem_append.mp hu with h1 | h2
        · exact hinv.1 u h1
        · rw [List.mem_singleton] at h2
          subst h2
          exact hexit
      · intro t ht hopen
        have ht0 : t0 = t := Option.some.inj ht
        subst ht0
        exact absurd hopen hexit

/-- Witness for C4: the 3-bar run that opens a long trade at the third bar and
force-closes it at the data end. -/
theorem run_strategy_closes_all_trades_witness :
    allExitSet [Trade.mk 2 11 1 (some 2) (some 11)] :=
  (run_strategy_closes_all_trades 1 2 (Bar.mk 0 10) [Bar.mk 1 10, Bar.mk 2 11]
    [(0, 1), (1, 1), (2, 11/10)] [Trade.mk 2 11 1 (some 2) (some 11)]
    (by norm_num [run_strategy, step, transition, initState, maLast, closeLast,
      finalizeTrades, Trade.close])).1

/-- Claim C1 (amended): the per-bar return applied to the equity curve is
`position_sign * (close_t / close_{t-1} - 1)` where `position_sign` is the
position *after* the transition decided from bar t's own crossover signals —
not the position carried from the previous step.  Stated for an arbitrary
processed prefix `pre` followed by one more bar `r`. -/
theorem step_return_uses_transitioned_position (SW LW : Nat) (c0 : ℚ)
    (pre : List Bar) (r : Bar) :
    ((pre ++ [r]).foldl (step SW LW) (initState c0)).equity =
      (pre.foldl (step SW LW) (initState c0)).equity *
        (1 + (((pre ++ [r]).foldl (step SW LW) (initState c0)).position : ℚ) *
          (r.close / (pre.foldl (step SW LW) (initState c0)).last_close - 1)) ∧
    ((pre ++ [r]).foldl (step SW LW) (initState c0)).eq_curve =
      (pre.foldl (step SW LW) (initState c0)).eq_curve ++
        [(r.datetime, ((pre ++ [r]).foldl (step SW LW) (initState c0)).equity)] := by
  rw [List.foldl_append]
  exact ⟨rfl, rfl⟩

/-- Counterexample to claim C1 as stated: on closes `[10, 10, 11]` with
windows `1`/`2`, a cross-up fires at the third bar; the code applies that
bar's return with the freshly assigned Long position (equity `11/10`), while
the claimed entering-bar-position semantics (`spec_run_strategy`) would keep
the return at 0 (equity `1`). -/
theorem run_strategy_return_timing_cex :
    (run_strategy 1 2 [Bar.mk 0 10, Bar.mk 1 10, Bar.mk 2 11]).map
        (fun pr => pr.1.map Prod.snd) = some [1, 1, 11/10] ∧
    (spec_run_strategy 1 2 [Bar.mk 0 10, Bar.mk 1 10, Bar.mk 2 11]).map
        (fun pr => pr.1.map Prod.snd) = some [1, 1, 1] ∧
    (11/10 : ℚ) ≠ 1 := by
  refine ⟨?_, ?_, by norm_num⟩ <;>
    norm_num [run_strategy, spec_run_strategy, step, specStep, transition,
      initState, maLast, closeLast, finalizeTrades, Trade.close]

/-! ### Equity as a compounded product (claim C8) -/

/-- The sequence of per-bar returns the engine applies while consuming `l`
from state `s` (each one computed, as on line 82, with the position after that
bar's transition). -/
def retsOf (SW LW : Nat) (s : State) : List Bar → List ℚ
  | [] => []
  | r :: rs => stepRet SW LW s r :: retsOf SW LW (step SW LW s r) rs

/-- Running products `acc * (1+r₁), acc * (1+r₁) * (1+r₂), ...` of the
multipliers `1 + rᵢ`. -/
def partialProds : List ℚ → ℚ → List ℚ
  | [], _ => []
  | r :: rs, acc => (acc * (1 + r)) :: partialProds rs (acc * (1 + r))

/-- The equity values recorded on the curve are exactly the running products
of the per-bar multipliers, starting from the incoming equity. -/
lemma eq_curve_partialProds (SW LW : Nat) :
    ∀ (l : List Bar) (s : State),
      ((l.foldl (step SW LW) s).eq_curve).map Prod.snd =
        s.eq_curve.map Prod.snd ++ partialProds (retsOf SW LW s l) s.equity := by
  intro l
  induction l with
  | nil =>
    intro s
    simp [retsOf, partialProds]
  | cons r rs ih =>
    intro s
    rw [List.foldl_cons, ih (step SW LW s r), step_eq_curve, List.map_append]
    simp only [retsOf, partialProds, step_equity, List.map_cons, List.map_nil]
    rw [List.append_assoc]
    rfl

/-- Running products of multipliers `1 + r` stay positive as long as every
return exceeds `-1`. -/
lemma partialProds_pos :
    ∀ (rs : List ℚ) (acc : ℚ), 0 < acc → (∀ r ∈ rs, -1 < r) →
      ∀ v ∈ partialProds rs acc, 0 < v := by
  intro rs
  induction rs with
  | nil =>
    intro acc _ _ v hv
    cases hv
  | cons r rest ih =>
    intro acc hacc hr v hv
    have hmul : 0 < acc * (1 + r) := by
      have h1 : (0 : ℚ) < 1 + r := by
        have := hr r (List.mem_cons_self r rest)
        linarith
      positivity
    rcases List.mem_cons.mp hv with h1 | h2
    · rw [h1]
      exact hmul
    · exact ih (acc * (1 + r)) hmul (fun x hx => hr x (List.mem_cons_of_mem r hx)) v h2

/-- Claim C8 (amended): the equity values of the strategy curve are exactly
the running products of the per-step multipliers `1 + return_t` accumulated
from 1.0, and they are all strictly positive whenever every single-step
return is strictly greater than `-100%` (the original claim's premise — only
ruling out returns exactly equal to `-100%` — is refuted by
`equity_positivity_cex` below). -/
theorem equity_compounded_product (SW LW : Nat) (r0 : Bar) (rest : List Bar)
    (curve : List (Time × ℚ)) (trades : List Trade)
    (h : run_strategy SW LW (r0 :: rest) = some (curve, trades)) :
    curve.map Prod.snd =
      partialProds (retsOf SW LW (initState r0.close) (r0 :: rest)) 1 ∧
    ((∀ r ∈ retsOf SW LW (initState r0.close) (r0 :: rest), -1 < r) →
      ∀ v ∈ curve.map Prod.snd, 0 < v) := by
  simp only [run_strategy, Option.some.injEq, Prod.mk.injEq] at h
  obtain ⟨hcurve, -⟩ := h
  have hmap := eq_curve_partialProds SW LW (r0 :: rest) (initState r0.close)
  rw [hcurve] at hmap
  have hinit : (initState r0.close).eq_curve.map Prod.snd = [] := rfl
  rw [hinit, List.nil_append] at hmap
  refine ⟨hmap, fun hr v hv => ?_⟩
  rw [hmap] at hv
  exact partialProds_pos _ 1 one_pos hr v hv

/-- Witness for C8 on a two-bar input where both per-step returns are 0. -/
theorem equity_compounded_product_witness :
    ([((0 : Time), (1 : ℚ)), (1, 1)].map Prod.snd =
      partialProds (retsOf 1 2 (initState 10) [Bar.mk 0 10, Bar.mk 1 12]) 1) ∧
    ((∀ r ∈ retsOf 1 2 (initState 10) [Bar.mk 0 10, Bar.mk 1 12], -1 < r) →
      ∀ v ∈ [((0 : Time), (1 : ℚ)), (1, 1)].map Prod.snd, 0 < v) :=
  equity_compounded_product 1 2 (Bar.mk 0 10) [Bar.mk 1 12]
    [((0 : Time), (1 : ℚ)), (1, 1)] []
    (by norm_num [run_strategy, step, transition, initState, maLast,
      finalizeTrades])

/-- Counterexample to claim C8 as stated: with windows `2`/`3` on closes
`[10, 12, 11, 8, 2, 5]` the engine goes short at the fourth bar and stays
short while the price jumps from 2 to 5, a per-step return of `-150%`.  No
single-step return equals exactly `-100%`, yet the final equity value
`-49/44` is negative. -/
theorem equity_positivity_cex :
    (run_strategy 2 3 [Bar.mk 0 10, Bar.mk 1 12, Bar.mk 2 11, Bar.mk 3 8,
        Bar.mk 4 2, Bar.mk 5 5]).map (fun pr => pr.1.map Prod.snd) =
      some [1, 1, 1, 14/11, 49/22, -49/44] ∧
    retsOf 2 3 (initState 10) [Bar.mk 0 10, Bar.mk 1 12, Bar.mk 2 11,
        Bar.mk 3 8, Bar.mk 4 2, Bar.mk 5 5] = [0, 0, 0, 3/11, 3/4, -3/2] ∧
    (∀ r ∈ [(0 : ℚ), 0, 0, 3/11, 3/4, -3/2], r ≠ -1) ∧
    ¬ (0 < (-49/44 : ℚ)) := by
  refine ⟨?_, ?_, by norm_num, by norm_num⟩ <;>
    norm_num [run_strategy, retsOf, stepRet, step, transition, initState,
      maLast, closeLast, finalizeTrades, Trade.close]

/-! ### Metrics (claims C5, C6, C7) -/

/-- Claim C5 (amended): the Sharpe-style ratio is
`(mean(r) / stddev(r)) * sqrt(6552)` over the per-step simple returns with
the `N-1` sample standard deviation, and it is 0 when no return sample exists
or when the standard deviation is 0; but with *exactly one* return sample the
computation divides by `len(rets) - 1 = 0` and fails instead of returning 0
(refuting that part of the original claim, see `sharpe_one_sample_cex`). -/
theorem sharpe_zero_and_failure_cases (curve : List (Time × ℚ)) :
    (stepReturns curve = [] → sharpeOfCurve curve = some 0) ∧
    ((stepReturns curve).length = 1 → sharpeOfCurve curve = none) ∧
    (2 ≤ (stepReturns curve).length →
      sharpeOfCurve curve =
        if Real.sqrt ((retsVar (stepReturns curve) : ℚ) : ℝ) = 0 then some 0
        else some (((retsMean (stepReturns curve) : ℚ) : ℝ) /
          Real.sqrt ((retsVar (stepReturns curve) : ℚ) : ℝ) * Real.sqrt 6552)) := by
  refine ⟨fun h => ?_, fun h => ?_, fun h => ?_⟩
  · simp [sharpeOfCurve, h]
  · have hne : ¬ (stepReturns curve).isEmpty = true := by
      rw [List.isEmpty_iff]
      intro hnil
      rw [hnil] at h
      simp at h
    simp [sharpeOfCurve, hne, h]
  · have hne : ¬ (stepReturns curve).isEmpty = true := by
      rw [List.isEmpty_iff]
      intro hnil
      rw [hnil] at h
      simp at h
    have h1 : (stepReturns curve).length ≠ 1 := by omega
    simp [sharpeOfCurve, hne, h1]

/-- Witness for C5: a one-point curve has no return samples, and the ratio is
0 as the source's `else` branch prescribes. -/
theorem sharpe_zero_and_failure_cases_witness :
    sharpeOfCurve [((0 : Time), (1 : ℚ))] = some 0 :=
  (sharpe_zero_and_failure_cases [((0 : Time), (1 : ℚ))]).1 (by simp [stepReturns])

/-- Counterexample to claim C5 as stated: a two-point curve has exactly one
return sample — fewer than 2 — yet the code raises `ZeroDivisionError`
(modelled `none`) instead of returning 0. -/
theorem sharpe_one_sample_cex :
    (stepReturns [((0 : Time), (1 : ℚ)), (86400, 2)]).length = 1 ∧
    sharpeOfCurve [((0 : Time), (1 : ℚ)), (86400, 2)] = none ∧
    (none : Option ℝ) ≠ some 0 := by
  refine ⟨by simp [stepReturns], by simp [sharpeOfCurve, stepReturns], by simp⟩

/-- Claim C6: the annualized return is
`(end_value / start_value) ^ (365 / elapsed_days) - 1` over the whole-day span
of the curve, and the computation fails (division by zero in the exponent
`1 / years`) when the span is 0 days. -/
theorem annualized_return_formula (p : Time × ℚ) (rest : List (Time × ℚ)) (d : Int)
    (hd : timedeltaDays p.1 ((p :: rest).getLast (List.cons_ne_nil p rest)).1 = d) :
    (d = 0 → annualized_return (p :: rest) = none) ∧
    (d ≠ 0 → annualized_return (p :: rest) =
      some (Real.rpow ((((p :: rest).getLast (List.cons_ne_nil p rest)).2 / p.2 : ℚ) : ℝ)
        ((365 : ℝ) / (d : ℝ)) - 1)) := by
  constructor
  · intro h0
    simp only [annualized_return]
    rw [hd, if_pos h0]
  · intro hne
    simp only [annualized_return]
    rw [hd, if_neg hne, one_div_div]

/-- Witness for C6: a one-day curve doubling from 1 to 2. -/
theorem annualized_return_formula_witness :
    annualized_return [((0 : Time), (1 : ℚ)), (86400, 2)] =
      some (Real.rpow (((2 : ℚ) : ℝ)) ((365 : ℝ)) - 1) := by
  have h := (annualized_return_formula ((0 : Time), (1 : ℚ))
    [((86400 : Time), (2 : ℚ))] 1 (by decide)).2 (by decide)
  norm_num at h
  convert h using 4
  norm_num

/-- `(if b > a then b else a)` is `max a b`. -/
lemma if_gt_eq_max (a b : ℚ) : (if b > a then b else a) = max a b := by
  rcases le_or_lt b a with h | h
  · rw [if_neg (not_lt.mpr h), max_eq_left h]
  · rw [if_pos h, max_eq_right h.le]

/-- The drawdowns visited by the loop of lines 125-130: at each point, the
running peak is updated and `(peak - equity) / peak` is recorded. -/
def ddList : List ℚ → ℚ → List ℚ
  | [], _ => []
  | eq :: rest, max_equity =>
    let peak := if eq > max_equity then eq else max_equity
    ((peak - eq) / peak) :: ddList rest peak

/-- The loop computes exactly the running maximum of the visited drawdowns. -/
lemma ddLoop_eq_foldl_max : ∀ (vals : List ℚ) (peak dd0 : ℚ),
    ddLoop vals peak dd0 = (ddList vals peak).foldl max dd0 := by
  intro vals
  induction vals with
  | nil =>
    intro peak dd0
    rfl
  | cons eq rest ih =>
    intro peak dd0
    simp only [ddLoop, ddList, List.foldl_cons]
    rw [ih]
    congr 1
    exact if_gt_eq_max _ _

lemma le_foldl_max : ∀ (l : List ℚ) (a b : ℚ), a ≤ b → a ≤ l.foldl max b := by
  intro l
  induction l with
  | nil =>
    intro a b h
    exact h
  | cons x xs ih =>
    intro a b h
    rw [List.foldl_cons]
    exact ih a (max b x) (h.trans (le_max_left b x))

/-- On strictly positive equity values the running maximum drawdown stays
below 1. -/
lemma ddLoop_lt_one : ∀ (vals : List ℚ) (peak dd0 : ℚ), 0 < peak → dd0 < 1 →
    (∀ v ∈ vals, 0 < v) → ddLoop vals peak dd0 < 1 := by
  intro vals
  induction vals with
  | nil =>
    intro peak dd0 _ h _
    exact h
  | cons eq rest ih =>
    intro peak dd0 hpeak hdd hvals
    have heq : 0 < eq := hvals eq (List.mem_cons_self _ _)
    have hpeak' : 0 < (if eq > peak then eq else peak) := by
      split_ifs with h
      · exact heq
      · exact hpeak
    have hddlt : ((if eq > peak then eq else peak) - eq) /
        (if eq > peak then eq else peak) < 1 := by
      rw [div_lt_one hpeak']
      linarith
    simp only [ddLoop]
    refine ih _ _ hpeak' ?_ (fun v hv => hvals v (List.mem_cons_of_mem _ hv))
    by_cases hgt : ((if eq > peak then eq else peak) - eq) /
        (if eq > peak then eq else peak) > dd0
    · rw [if_pos hgt]
      exact hddlt
    · rw [if_neg hgt]
      exact hdd

/-- Claim C7 (amended): the maximum drawdown is the maximum over all curve
points of `(peak - equity) / peak` with `peak` the running maximum; it is
always ≥ 0, and it lies below 1 *provided every equity value is positive*
(the unconditional `[0, 1)` of the original claim fails on curves with
non-positive values, see `max_drawdown_range_cex`); on the curve
`[1, 1.2, 0.9, 1.1]` it is exactly `1/4`. -/
theorem max_drawdown_bounds (p : Time × ℚ) (rest : List (Time × ℚ)) (r : ℚ)
    (h : max_drawdown (p :: rest) = some r) :
    r = (ddList ((p :: rest).map Prod.snd) p.2).foldl max 0 ∧
    0 ≤ r ∧
    ((∀ q ∈ p :: rest, 0 < q.2) → r < 1) ∧
    max_drawdown [((0 : Time), (1 : ℚ)), (1, 6/5), (2, 9/10), (3, 11/10)] =
      some (1/4) := by
  have hr : r = ddLoop ((p :: rest).map Prod.snd) p.2 0 := by
    simp only [max_drawdown, Option.some.injEq] at h
    exact h.symm
  refine ⟨?_, ?_, ?_, ?_⟩
  · rw [hr, ddLoop_eq_foldl_max]
  · rw [hr, ddLoop_eq_foldl_max]
    exact le_foldl_max _ 0 0 le_rfl
  · intro hpos
    rw [hr]
    refine ddLoop_lt_one _ _ _ (hpos p (List.mem_cons_self _ _)) zero_lt_one ?_
    intro v hv
    rcases List.mem_map.mp hv with ⟨q, hq, rfl⟩
    exact hpos q hq
  · norm_num [max_drawdown, ddLoop]

/-- Witness for C7 on the spec's example curve `[1, 1.2, 0.9, 1.1]`. -/
theorem max_drawdown_bounds_witness :
    0 ≤ (1/4 : ℚ) ∧ (1/4 : ℚ) < 1 :=
  ⟨(max_drawdown_bounds ((0 : Time), (1 : ℚ)) [(1, 6/5), (2, 9/10), (3, 11/10)]
      (1/4) (by norm_num [max_drawdown, ddLoop])).2.1,
   (max_drawdown_bounds ((0 : Time), (1 : ℚ)) [(1, 6/5), (2, 9/10), (3, 11/10)]
      (1/4) (by norm_num [max_drawdown, ddLoop])).2.2.1 (by norm_num)⟩

/-- Counterexample to claim C7 as stated: on a curve reaching a negative
equity value the "maximum drawdown" is 2, outside `[0, 1)`. -/
theorem max_drawdown_range_cex :
    max_drawdown [((0 : Time), (1 : ℚ)), (1, -1)] = some 2 ∧ ¬ ((2 : ℚ) < 1) := by
  constructor
  · norm_num [max_drawdown, ddLoop]
  · norm_num

/-! ### Trade frequency and pnl (claims C9, C10) -/

/-- Claim C9: the trade frequency is the trade count divided by the elapsed
months (exit of the last trade minus entry of the first, in days over 30); it
is the raw count when the elapsed months are 0, and 0.0 on an empty log. -/
theorem trade_frequency_cases (t0 : Trade) (rest : List Trade) (et : Time)
    (h : ((t0 :: rest).getLast (List.cons_ne_nil t0 rest)).exit_time = some et) :
    trade_frequency [] = some 0 ∧
    ((timedeltaDays t0.time et : ℚ) / 30 = 0 →
      trade_frequency (t0 :: rest) = some ((t0 :: rest).length : ℚ)) ∧
    ((timedeltaDays t0.time et : ℚ) / 30 ≠ 0 →
      trade_frequency (t0 :: rest) = some (((t0 :: rest).length : ℚ) /
        ((timedeltaDays t0.time et : ℚ) / 30))) := by
  refine ⟨rfl, fun h0 => ?_, fun h0 => ?_⟩
  · simp only [trade_frequency, h]
    rw [if_pos h0]
  · simp only [trade_frequency, h]
    rw [if_neg h0]

/-- Witness for C9: one trade spanning 30 whole days gives frequency 1. -/
theorem trade_frequency_cases_witness :
    trade_frequency [Trade.mk 0 10 1 (some 2592000) (some 11)] = some 1 := by
  have hd : timedeltaDays (Trade.mk 0 10 1 (some 2592000) (some 11)).time 2592000 = 30 := by
    decide
  have h := (trade_frequency_cases (Trade.mk 0 10 1 (some 2592000) (some 11)) []
    2592000 rfl).2.2 (by rw [hd]; norm_num)
  rw [hd] at h
  norm_num at h
  exact h

/-- Claim C10: `Trade.pnl` is 0.0 on an open trade, `exit/entry - 1` on a
closed long, `entry/exit - 1` on a closed short — and the latter is not the
negation of the long-side return at the same prices (entry 1, exit 2 gives
short pnl `-1/2` against `-(2/1 - 1) = -1`). -/
theorem trade_pnl_cases (t : Trade) :
    (t.exit_price = none → t.pnl = 0) ∧
    (∀ ep, t.exit_price = some ep → t.position = 1 → t.pnl = ep / t.price - 1) ∧
    (∀ ep, t.exit_price = some ep → t.position = -1 → t.pnl = t.price / ep - 1) ∧
    (Trade.pnl (Trade.mk 0 1 (-1) (some 0) (some 2)) = -(1/2) ∧
      -(Trade.pnl (Trade.mk 0 1 1 (some 0) (some 2))) = -1 ∧
      Trade.pnl (Trade.mk 0 1 (-1) (some 0) (some 2)) ≠
        -(Trade.pnl (Trade.mk 0 1 1 (some 0) (some 2)))) := by
  refine ⟨fun h => ?_, fun ep h h1 => ?_, fun ep h h1 => ?_, ?_, ?_, ?_⟩
  · simp [Trade.pnl, h]
  · simp [Trade.pnl, h, h1]
  · norm_num [Trade.pnl, h, h1]
  · norm_num [Trade.pnl]
  · norm_num [Trade.pnl]
  · norm_num [Trade.pnl]

/-- Witness for C10: an open trade has pnl 0. -/
theorem trade_pnl_cases_witness :
    Trade.pnl (Trade.mk 0 5 1 none none) = 0 :=
  (trade_pnl_cases (Trade.mk 0 5 1 none none)).1 rfl

end StrategyAnalysis
